import Mathlib

/-!
Verification of the terabox-app link-resolution engine.

The TypeScript/JavaScript sources are shallowly embedded below. JavaScript
string primitives (`split`, `trim`, `toLowerCase`, `startsWith`, `includes`,
`join`) are modelled by executable functions on the underlying character
lists, so that every definition evaluates inside the kernel. Network effects
are modelled by oracles: a redirect chain is a function from the hop index to
the response returned by that hop's fetch, and the multi-step resolution
handlers take the outcome of each upstream step as an input. Thrown
JavaScript errors are modelled as `none` / dedicated error constructors.
-/

namespace TbSpec

/-! ### JavaScript string primitives, modelled on character lists -/

/-- Splits a character list at every occurrence of the separator character,
keeping empty segments, exactly like JavaScript `String.prototype.split` with
a one-character separator. -/
def chSplit (sep : Char) : List Char → List (List Char)
  | [] => [[]]
  | c :: cs =>
    let r := chSplit sep cs
    if c = sep then [] :: r
    else
      match r with
      | [] => [[c]]
      | h :: t => (c :: h) :: t

/-- JavaScript `s.split(sep)` for a one-character separator. -/
def jsSplitChar (s : String) (sep : Char) : List String :=
  (chSplit sep s.data).map (fun l => ⟨l⟩)

/-- Whitespace recognizer used by the `trim` model. -/
def isWs (c : Char) : Bool := c = ' ' || c = '\t' || c = '\n' || c = '\r'

/-- JavaScript `s.trim()`. -/
def jsTrim (s : String) : String :=
  ⟨((s.data.dropWhile isWs).reverse.dropWhile isWs).reverse⟩

/-- JavaScript `s.toLowerCase()` (ASCII is all the sources need). -/
def jsToLower (s : String) : String := ⟨s.data.map Char.toLower⟩

/-- JavaScript `s.startsWith(pre)`. -/
def jsStartsWith (s pre : String) : Bool := pre.data.isPrefixOf s.data

/-- Substring containment on lists, used to model JavaScript `includes`. -/
def listContainsSub [DecidableEq α] (pat : List α) : List α → Bool
  | [] => pat.isEmpty
  | a :: l => pat.isPrefixOf (a :: l) || listContainsSub pat l

/-- JavaScript `s.includes(pat)`. -/
def jsIncludes (s pat : String) : Bool := listContainsSub pat.data s.data

/-- JavaScript `arr.join(sep)`. -/
def jsIntercalate (sep : String) : List String → String
  | [] => ""
  | [x] => x
  | x :: xs => x ++ sep ++ jsIntercalate sep xs

/-- Boolean test for one string being a prefix of another (kernel-reducible,
unlike the `Substring`-based core version). -/
def isPrefixStr (a b : String) : Bool := a.data.isPrefixOf b.data

/-- Decimal digits of a natural number, fuel-recursive so it reduces. -/
def natToStrAux : Nat → Nat → List Char
  | 0, _ => []
  | fuel + 1, n =>
    if n < 10 then [Char.ofNat (48 + n)]
    else natToStrAux fuel (n / 10) ++ [Char.ofNat (48 + n % 10)]

/-- Decimal rendering of a natural number, as JavaScript renders an integer. -/
def natToStr (n : Nat) : String := ⟨natToStrAux (n + 1) n⟩

/-! ### Size formatting

`getFormattedSize` embeds the formatter of `src/functions/api.ts` lines 8-12;
`getFormattedSizeAxios` embeds the variant of `src/app/api/route.ts` lines
233-248, which applies `toFixed(2)` in every branch including the bytes one;
`getFormattedSizeRoute` embeds `src/app/api/route.ts` lines 28-33, where a
non-finite input (modelled as `none`) yields `"Unknown"`.

`toFixed2` models JavaScript `x.toFixed(2)` for `x = num / den` with `den` a
power of two: such quotients are exactly representable binary rationals (for
`num` below 2^53), and `toFixed` then rounds to the nearest hundredth, ties
away from zero, which is `(200 * num + den) / (2 * den)` hundredths. -/

/-- Two-digit zero padding for the fractional part. -/
def pad2 (n : Nat) : String := if n < 10 then "0" ++ natToStr n else natToStr n

/-- JavaScript `(num / den).toFixed(2)` for exact binary rationals. -/
def toFixed2 (num den : Nat) : String :=
  let q := (200 * num + den) / (2 * den)
  natToStr (q / 100) ++ "." ++ pad2 (q % 100)

/-- Size formatter of `src/functions/api.ts` (integer bytes branch). -/
def getFormattedSize (bytes : Nat) : String :=
  if 1024 * 1024 ≤ bytes then toFixed2 bytes (1024 * 1024) ++ " MB"
  else if 1024 ≤ bytes then toFixed2 bytes 1024 ++ " KB"
  else natToStr bytes ++ " bytes"

/-- Size formatter of the axios variant in `src/app/api/route.ts` lines
233-248: `toFixed(2)` is applied in every branch, bytes included. -/
def getFormattedSizeAxios (sizeBytes : Nat) : String :=
  if 1024 * 1024 ≤ sizeBytes then toFixed2 sizeBytes (1024 * 1024) ++ " MB"
  else if 1024 ≤ sizeBytes then toFixed2 sizeBytes 1024 ++ " KB"
  else toFixed2 sizeBytes 1 ++ " bytes"

/-- A JavaScript number as produced by `Number(file.size)`: NaN, positive or
negative Infinity, or a finite value (upstream sizes are nonnegative
integers). -/
inductive JsNum where
  | nan
  | inf
  | negInf
  | fin (n : Nat)
  deriving DecidableEq

/-- JavaScript `Number.isFinite`. -/
def jsIsFinite : JsNum → Bool
  | .fin _ => true
  | _ => false

/-- JavaScript `x || 0` on a number: NaN and 0 are falsy and give 0, every
other number — Infinity included — is truthy and kept. -/
def jsOrZero : JsNum → JsNum
  | .nan => .fin 0
  | .fin 0 => .fin 0
  | x => x

/-- `JSON.stringify` rendering of a JavaScript number: the non-finite values
(NaN and the infinities) serialize as `null`. -/
def jsonNumRender : JsNum → String
  | .fin n => natToStr n
  | _ => "null"

/-- Size formatter of `src/app/api/route.ts` lines 28-33: the
`Number.isFinite` guard sends NaN and the infinities to `"Unknown"`; a
finite value takes the unit branches. -/
def getFormattedSizeRoute (bytes : JsNum) : String :=
  match bytes with
  | .fin b =>
    if 1024 * 1024 ≤ b then toFixed2 b (1024 * 1024) ++ " MB"
    else if 1024 ≤ b then toFixed2 b 1024 ++ " KB"
    else natToStr b ++ " bytes"
  | _ => "Unknown"

/-! ### Cookie jar merge -/

/-- The attribute-name set of the filtering `normalizeCookie` variant in
`src/functions/api.ts` lines 267-270. -/
def ATTR_NAMES : List String :=
  ["expires", "path", "domain", "max-age", "samesite",
   "secure", "httponly", "priority", "partitioned"]

/-- Code-unit comparison of two character lists, as JavaScript default
`Array.prototype.sort` compares strings. -/
def clLe : List Char → List Char → Bool
  | [], _ => true
  | _ :: _, [] => false
  | a :: as, b :: bs => if a < b then true else if b < a then false else clLe as bs

/-- String comparison by code units. -/
def strLeB (a b : String) : Bool := clLe a.data b.data

/-- Insertion step of the sort used to model JavaScript `Array.sort()`. -/
def insertStr (x : String) : List String → List String
  | [] => [x]
  | y :: ys => if strLeB x y then x :: y :: ys else y :: insertStr x ys

/-- Sort of a string list in code-unit order (JavaScript default sort). -/
def sortStrings : List String → List String
  | [] => []
  | x :: xs => insertStr x (sortStrings xs)

/-- The simple `normalizeCookie` of `src/functions/api.ts` lines 22-29: split
on semicolons, trim, drop empties, sort, re-join. No attribute filtering. -/
def normalizeCookie (cookie : String) : String :=
  jsIntercalate "; "
    (sortStrings (((jsSplitChar cookie ';').map jsTrim).filter (fun s => s ≠ "")))

/-- JavaScript `Map.has` on an insertion-ordered association list. -/
def mapHas (m : List (String × String)) (k : String) : Bool :=
  m.any (fun p => p.1 = k)

/-- JavaScript `Map.set` on an insertion-ordered association list: an
existing key keeps its position and gets the new value, a new key is
appended. -/
def mapSet (m : List (String × String)) (k v : String) : List (String × String) :=
  if mapHas m k then m.map (fun p => if p.1 = k then (k, v) else p)
  else m ++ [(k, v)]

/-- One loop iteration of the filtering `normalizeCookie` variant
(`src/functions/api.ts` lines 275-304): fragments without `=` are dropped,
fragments whose key is an attribute name (case-insensitively) are dropped,
an empty value never overwrites an existing entry. -/
def cookieStep (m : List (String × String)) (part : String) : List (String × String) :=
  match jsSplitChar part '=' with
  | [] => m
  | [_flag] => m
  | k :: vs =>
    let key := jsTrim k
    let value := jsTrim (jsIntercalate "=" vs)
    if ATTR_NAMES.contains (jsToLower key) then m
    else if key = "" then m
    else if value = "" then (if mapHas m key then m else mapSet m key value)
    else mapSet m key value

/-- The name-to-value map built by the filtering `normalizeCookie` variant. -/
def normalizeCookieMap (cookie : String) : List (String × String) :=
  (((jsSplitChar cookie ';').map jsTrim).filter (fun s => s ≠ "")).foldl cookieStep []

/-- Insertion step for sorting cookie entries by key. -/
def insertPair (x : String × String) :
    List (String × String) → List (String × String)
  | [] => [x]
  | y :: ys => if strLeB x.1 y.1 then x :: y :: ys else y :: insertPair x ys

/-- Sort of cookie entries by key. The source sorts with `localeCompare`;
code-unit order is used here, and every property proved about the output is
independent of the comparator. -/
def sortPairs : List (String × String) → List (String × String)
  | [] => []
  | x :: xs => insertPair x (sortPairs xs)

/-- The filtering `normalizeCookie` of `src/functions/api.ts` lines 264-311:
builds the name-to-value map, sorts by key and serializes. -/
def normalizeCookieFiltered (cookie : String) : String :=
  jsIntercalate "; "
    ((sortPairs (normalizeCookieMap cookie)).map (fun p => p.1 ++ "=" ++ p.2))

/-- From the claim wording: the cookie names emitted in a serialized cookie
string (the text before the first `=` of each `; `-separated fragment). -/
def specCookieNames (s : String) : List String :=
  (jsSplitChar s ';').map (fun p => jsTrim ((jsSplitChar p '=').headD p))

/-! ### The redirecting fetch clients -/

/-- One upstream HTTP response, reduced to the fields the clients inspect. -/
structure Resp where
  status : Nat
  location : Option String
  setCookie : Option String
  deriving DecidableEq

/-- Cookie merge of `src/functions/api.ts` lines 47-51: the whole raw
`Set-Cookie` value (attributes included) is appended to the store. An absent
or empty header (JavaScript falsy) leaves the store unchanged. -/
def mergeWhole (store : String) (sc : Option String) : String :=
  match sc with
  | none => store
  | some s =>
    if s = "" then store
    else store ++ (if store = "" then "" else "; ") ++ s

/-- JavaScript `setCookie.split(";")[0]`. -/
def firstFragment (s : String) : String := (jsSplitChar s ';').headD ""

/-- Cookie merge of `src/app/api/route.ts` lines 57-61 and
`src/unnamed/part_000` lines 53-57: only the `name=value` pair before the
first semicolon is appended, without de-duplication. -/
def mergePairRaw (store : String) (sc : Option String) : String :=
  match sc with
  | none => store
  | some s =>
    if s = "" then store
    else store ++ (if store = "" then "" else "; ") ++ firstFragment s

/-- Cookie merge of `src/netlify/functions/terabox.js` lines 65-70 (also
`src/unnamed/part_001` and `part_002`): the pair before the first semicolon
is appended unless the store already contains it. -/
def mergePair (store : String) (sc : Option String) : String :=
  match sc with
  | none => store
  | some s =>
    if s = "" then store
    else
      let pair := firstFragment s
      if jsIncludes store pair then store
      else store ++ (if store = "" then "" else "; ") ++ pair

/-- Final response and accumulated cookie of `fetchFollowWithCookies`
(`src/functions/api.ts`). -/
structure FetchResult where
  response : Resp
  cookie : String
  deriving DecidableEq

/-- A redirect hop: status in [300,400) and a Location header whose value is
truthy (JavaScript treats an empty Location exactly like a missing one). -/
def isRedirectHop (r : Resp) : Bool :=
  if 300 ≤ r.status ∧ r.status < 400 then
    match r.location with
    | none => false
    | some l => if l = "" then false else true
  else false

/-- Loop of `fetchFollowWithCookies` in `src/functions/api.ts` lines 33-64.
`resps i` is the response returned by the i-th fetch of the call, `resolve`
models `new URL(loc, current).toString()`, the remaining arguments are the
loop counter budget, the hop index, the current URL and the cookie store.
Returns the result (`none` models the thrown `Too many redirects` error)
together with the trace of issued requests as (URL, sent Cookie) pairs. -/
def fetchFwcGo (resps : Nat → Resp) (resolve : String → String → String) :
    Nat → Nat → String → String → Option FetchResult × List (String × String)
  | 0, _, _, _ => (none, [])
  | fuel + 1, i, current, store =>
    let res := resps i
    let store1 := mergeWhole store res.setCookie
    if 300 ≤ res.status ∧ res.status < 400 then
      match res.location with
      | none => (some ⟨res, store1⟩, [(current, store)])
      | some loc =>
        if loc = "" then (some ⟨res, store1⟩, [(current, store)])
        else
          let next := if jsStartsWith loc "http" then loc else resolve loc current
          let rest := fetchFwcGo resps resolve fuel (i + 1) next store1
          (rest.1, (current, store) :: rest.2)
    else (some ⟨res, store1⟩, [(current, store)])

/-- `fetchFollowWithCookies(url, headers, maxRedirects)` of
`src/functions/api.ts`: the loop started at hop 0 with the initial Cookie
header value as the store. -/
def fetchFollowWithCookies (resps : Nat → Resp) (resolve : String → String → String)
    (url : String) (initCookie : String) (maxRedirects : Nat) :
    Option FetchResult × List (String × String) :=
  fetchFwcGo resps resolve maxRedirects 0 url initCookie

/-- Loop of `fetchFollowCookies` in `src/netlify/functions/terabox.js` lines
51-79: pair-merge with de-duplication, non-3xx returned first, and the
response alone is returned (the store is not part of the result). -/
def fetchFcGo (resps : Nat → Resp) (resolve : String → String → String) :
    Nat → Nat → String → String → Option Resp × List (String × String)
  | 0, _, _, _ => (none, [])
  | fuel + 1, i, current, store =>
    let res := resps i
    let store1 := mergePair store res.setCookie
    if ¬(300 ≤ res.status ∧ res.status < 400) then (some res, [(current, store)])
    else
      match res.location with
      | none => (some res, [(current, store)])
      | some loc =>
        if loc = "" then (some res, [(current, store)])
        else
          let next := if jsStartsWith loc "http" then loc else resolve loc current
          let rest := fetchFcGo resps resolve fuel (i + 1) next store1
          (rest.1, (current, store) :: rest.2)

/-- `fetchFollowCookies(url, headers, method, maxRedirects)` of
`src/netlify/functions/terabox.js`. -/
def fetchFollowCookies (resps : Nat → Resp) (resolve : String → String → String)
    (url : String) (initCookie : String) (maxRedirects : Nat) :
    Option Resp × List (String × String) :=
  fetchFcGo resps resolve maxRedirects 0 url initCookie

/-- From the claim wording: the scheme of a URL is its text before the first
colon. -/
def specUrlScheme (u : String) : String := (jsSplitChar u ':').headD u

/-! ### Header lists (the web `Headers` object) -/

/-- A `Headers` object: insertion-ordered pairs with lowercased names. -/
abbrev HeaderList := List (String × String)

/-- `Headers.set`: the name is lowercased; an existing entry keeps its
position and gets the new value, otherwise the pair is appended. -/
def headerSet (hs : HeaderList) (k v : String) : HeaderList :=
  let kl := jsToLower k
  if hs.any (fun p => p.1 = kl) then hs.map (fun p => if p.1 = kl then (kl, v) else p)
  else hs ++ [(kl, v)]

/-- `Headers.get` (case-insensitive, `none` for absent). -/
def headerGet (hs : HeaderList) (k : String) : Option String :=
  (hs.find? (fun p => p.1 = jsToLower k)).map (fun p => p.2)

/-- The header names present in a header list. -/
def hdrKeys (hs : HeaderList) : List String := hs.map (fun p => p.1)

/-! ### The streaming proxy -/

/-- Outgoing headers built by `proxyDownload` in `src/functions/api.ts` lines
83-94: an upstream header is copied when its lowercased name starts with
`content` (no hyphen required) or equals `accept-ranges`; then the two CORS
headers are set. -/
def proxyOutHeadersApi (upstream : HeaderList) : HeaderList :=
  let filtered := upstream.foldl
    (fun acc p =>
      if jsStartsWith (jsToLower p.1) "content" || jsToLower p.1 = "accept-ranges"
      then headerSet acc p.1 p.2 else acc) []
  headerSet (headerSet filtered "Access-Control-Allow-Origin" "*")
    "Access-Control-Expose-Headers" "*"

/-- Outgoing headers built by `proxyDownload` in `src/app/api/route.ts` lines
218-225: the header filter is commented out, every upstream header is copied,
then the three CORS headers are set. -/
def proxyOutHeadersRoute (upstream : HeaderList) : HeaderList :=
  let copied := upstream.foldl (fun acc p => headerSet acc p.1 p.2) []
  headerSet (headerSet (headerSet copied "Access-Control-Allow-Origin" "*")
    "Access-Control-Allow-Methods" "GET, OPTIONS") "Access-Control-Expose-Headers" "*"

/-- Headers of the upstream request issued by `proxyDownload` in
`src/app/api/route.ts` lines 210-217: a fresh `Headers` object holding only
the inbound Range header, if any. The resolution cookie jar is not in scope
there at all. -/
def proxyUpstreamHeadersRoute (range : Option String) : HeaderList :=
  match range with
  | none => []
  | some r => headerSet [] "Range" r

/-- `proxyDownload` of `src/functions/api.ts` lines 68-76: the handler's
header object (which carries the accumulated Cookie jar) is reused, Range is
overlaid, and the request goes through `fetchFollowWithCookies`, whose trace
records the Cookie value sent on each hop. -/
def proxyDownloadApi (resps : Nat → Resp) (resolve : String → String → String)
    (url : String) (handlerHeaders : HeaderList) (range : Option String) :
    Option FetchResult × List (String × String) :=
  let hs := match range with
    | some r => headerSet handlerHeaders "Range" r
    | none => handlerHeaders
  fetchFollowWithCookies resps resolve url ((headerGet hs "Cookie").getD "") 10

/-! ### The resolution handlers

Each call to a redirecting fetch client inside a handler is one upstream
negotiation step; the handlers below take the outcome of each step as an
oracle input and record which steps they performed. -/

/-- Which upstream request a handler performed. -/
inductive StepTag where
  | tokenPage
  | page
  | list
  | dlink
  | proxyFetch
  deriving DecidableEq

/-- The JSON result object of `src/app/api/route.ts` (`CachedResult`). -/
structure CachedResult where
  file_name : String
  link : String
  direct_link : String
  thumb : String
  size : String
  sizebytes : JsNum
  deriving DecidableEq

/-- The first file entry of the upstream list response, reduced to the fields
the handlers read. `sizeNum` is the value of `Number(file.size)`,
distinguishing NaN and the infinities from finite parses. -/
structure FileEntry where
  dlink : Option String
  server_filename : Option String
  sizeNum : JsNum
  thumb : Option String
  deriving DecidableEq

/-- Outcome of the three upstream negotiation steps of one resolution:
the token extracted from the fetched page, the share identifier from the
final page URL, `json?.list?.[0]`, and the final URL of the direct-link
request (`""` models a falsy `dlinkRes.url`). -/
structure RouteOracle where
  jsToken : Option String
  surl : Option String
  file : Option FileEntry
  directLink : String
  deriving DecidableEq

/-- The inbound request read by the Next.js handlers. -/
structure Req where
  data : Option String
  hasProxy : Bool
  hasDownload : Bool
  range : Option String
  deriving DecidableEq

/-- Response of the Next.js handlers, reduced to what the claims observe. -/
inductive RouteResponse where
  | json (status : Nat) (body : CachedResult)
  | errorJson (status : Nat) (msg : String)
  | redirect (status : Nat) (loc : String)
  | proxy (url : String) (range : Option String)
  deriving DecidableEq

/-- Whether a handler response is one of the error JSON responses. -/
def isErrRoute : RouteResponse → Bool
  | .errorJson _ _ => true
  | _ => false

/-- The Cloudflare cache of `src/app/api/route.ts`, keyed by the share URL.
Time-to-live is enforced by the platform, so an entry present in the model
is an entry within its TTL. -/
abbrev CFCache := List (String × CachedResult)

/-- `getFromCache`. -/
def cfGet (c : CFCache) (k : String) : Option CachedResult :=
  (c.find? (fun p => p.1 = k)).map (fun p => p.2)

/-- `putToCache` (`cache.put` overwrites unconditionally). -/
def cfPut (c : CFCache) (k : String) (v : CachedResult) : CFCache :=
  (k, v) :: c.filter (fun p => p.1 ≠ k)

/-- `GET` of `src/app/api/route.ts` lines 123-202: cache probe first, then
share page, file-list API and direct link, caching only a fully successful
resolution. Returns the response, the cache afterwards and the upstream
steps performed. -/
def routeGET (req : Req) (o : RouteOracle) (cache : CFCache) :
    RouteResponse × CFCache × List StepTag :=
  match req.data with
  | none => (.errorJson 400 "Missing data", cache, [])
  | some shareUrl =>
    match cfGet cache shareUrl with
    | some cached =>
      if req.hasProxy then (.proxy cached.direct_link req.range, cache, [.proxyFetch])
      else if req.hasDownload then (.redirect 302 cached.direct_link, cache, [])
      else (.json 200 cached, cache, [])
    | none =>
      match o.jsToken with
      | none => (.errorJson 400 "Missing jsToken", cache, [.page])
      | some _ =>
        match o.surl with
        | none => (.errorJson 400 "Missing surl", cache, [.page])
        | some _ =>
          match o.file with
          | none => (.errorJson 400 "File not found", cache, [.page, .list])
          | some file =>
            match file.dlink with
            | none => (.errorJson 400 "File not found", cache, [.page, .list])
            | some dl =>
              if o.directLink = "" then
                (.errorJson 500 "Direct link failed", cache, [.page, .list, .dlink])
              else
                let result : CachedResult :=
                  ⟨file.server_filename.getD "", dl, o.directLink, file.thumb.getD "",
                    getFormattedSizeRoute file.sizeNum, jsOrZero file.sizeNum⟩
                let c2 := cfPut cache shareUrl result
                if req.hasProxy then
                  (.proxy o.directLink req.range, c2, [.page, .list, .dlink, .proxyFetch])
                else if req.hasDownload then
                  (.redirect 302 o.directLink, c2, [.page, .list, .dlink])
                else (.json 200 result, c2, [.page, .list, .dlink])

/-- An entry of the in-memory `globalThis` caches: payload plus absolute
expiry time in milliseconds. -/
structure CacheEntry (α : Type) where
  data : α
  expire : Nat
  deriving DecidableEq

/-- The in-memory `Map` cache of `src/netlify/functions/terabox.js` and
`src/unnamed/part_001`. -/
abbrev MemCache (α : Type) := List (String × CacheEntry α)

/-- `getCache(key)`: a hit past its expiry is deleted and reported absent.
Returns the value, if any, and the cache afterwards. -/
def memGet (now : Nat) (c : MemCache α) (k : String) : Option α × MemCache α :=
  match c.find? (fun p => p.1 = k) with
  | none => (none, c)
  | some e =>
    if e.2.expire < now then (none, c.filter (fun p => p.1 ≠ k))
    else (some e.2.data, c)

/-- `setCache(key, data)`: `Map.set` with expiry `now + ttl`. -/
def memSet (now ttl : Nat) (c : MemCache α) (k : String) (v : α) : MemCache α :=
  if c.any (fun p => p.1 = k) then
    c.map (fun p => if p.1 = k then (k, ⟨v, now + ttl⟩) else p)
  else c ++ [(k, ⟨v, now + ttl⟩)]

/-- `GET` of `src/unnamed/part_001` lines 141-248: the share page is fetched
and the token and surl are extracted before the cache (keyed by surl, TTL 25
minutes) is probed; list and direct-link steps run only on a miss. -/
def part1GET (req : Req) (o : RouteOracle) (now : Nat) (cache : MemCache CachedResult) :
    RouteResponse × MemCache CachedResult × List StepTag :=
  match req.data with
  | none => (.errorJson 400 "Missing data", cache, [])
  | some _ =>
    match o.jsToken with
    | none => (.errorJson 500 "Missing jsToken", cache, [.page])
    | some _ =>
      match o.surl with
      | none => (.errorJson 500 "Missing surl", cache, [.page])
      | some surl =>
        match memGet now cache surl with
        | (some hit, c1) => (.json 200 hit, c1, [.page])
        | (none, c1) =>
          match o.file with
          | none => (.errorJson 404 "File not found", c1, [.page, .list])
          | some file =>
            match file.dlink with
            | none => (.errorJson 404 "File not found", c1, [.page, .list])
            | some dl =>
              if o.directLink = "" then
                (.errorJson 502 "Direct link failed", c1, [.page, .list, .dlink])
              else
                let result : CachedResult :=
                  ⟨file.server_filename.getD "", dl, o.directLink, file.thumb.getD "",
                    getFormattedSizeRoute file.sizeNum, jsOrZero file.sizeNum⟩
                let c2 := memSet now (25 * 60 * 1000) c1 surl result
                if req.hasDownload then (.redirect 302 o.directLink, c2, [.page, .list, .dlink])
                else (.json 200 result, c2, [.page, .list, .dlink])

/-- The result object of `src/netlify/functions/terabox.js`. -/
structure TbxResult where
  file_name : String
  link : String
  direct_link : String
  size : JsNum
  thumb : String
  deriving DecidableEq

/-- Lambda response of the Netlify handler. -/
inductive TbxResponse where
  | ok (status : Nat) (body : TbxResult)
  | err (status : Nat) (msg : String)
  | redirect (loc : String)
  deriving DecidableEq

/-- Whether a Netlify response is an error response. -/
def isErrTbx : TbxResponse → Bool
  | .err _ _ => true
  | _ => false

/-- The inbound event of the Netlify handler. -/
structure TbxReq where
  data : Option String
  download : Bool
  deriving DecidableEq

/-- Resolution part of `handler` in `src/netlify/functions/terabox.js` lines
114-187: token page, share page, list API, direct-link HEAD; `setCache` runs
only after all checks passed. -/
def teraboxResolve (shareUrl : String) (req : TbxReq) (o : RouteOracle)
    (now : Nat) (cache : MemCache TbxResult) :
    TbxResponse × MemCache TbxResult × List StepTag :=
  match o.jsToken with
  | none => (.err 500 "jsToken not found", cache, [.tokenPage])
  | some _ =>
    match o.surl with
    | none => (.err 500 "surl not found", cache, [.tokenPage, .page])
    | some _ =>
      match o.file with
      | none => (.err 404 "File not found", cache, [.tokenPage, .page, .list])
      | some file =>
        match file.dlink with
        | none => (.err 404 "File not found", cache, [.tokenPage, .page, .list])
        | some dl =>
          let result : TbxResult :=
            ⟨file.server_filename.getD "", dl, o.directLink,
              jsOrZero file.sizeNum, file.thumb.getD ""⟩
          let c2 := memSet now (10 * 60 * 1000) cache shareUrl result
          if req.download then (.redirect o.directLink, c2, [.tokenPage, .page, .list, .dlink])
          else (.ok 200 result, c2, [.tokenPage, .page, .list, .dlink])

/-- `handler` of `src/netlify/functions/terabox.js` lines 82-197: on a cache
hit without the download flag the cached value is returned with no upstream
step; otherwise the full resolution runs. -/
def teraboxHandler (req : TbxReq) (o : RouteOracle) (now : Nat)
    (cache : MemCache TbxResult) :
    TbxResponse × MemCache TbxResult × List StepTag :=
  match req.data with
  | none => (.err 400 "Missing data", cache, [])
  | some shareUrl =>
    match memGet now cache shareUrl with
    | (some hit, c1) =>
      if req.download then teraboxResolve shareUrl req o now c1
      else (.ok 200 hit, c1, [])
    | (none, c1) => teraboxResolve shareUrl req o now c1

/-! ### Concrete inputs used by witnesses and counterexamples -/

/-- A chain with one redirect hop and then a 200. -/
def respsOneRedirect : Nat → Resp := fun i =>
  if i = 0 then ⟨302, some "http://b.example/", some "sid=1; Path=/; HttpOnly"⟩
  else ⟨200, none, none⟩

/-- A chain whose first hop redirects to a URL with scheme `httpx`. -/
def respsBadScheme : Nat → Resp := fun i =>
  if i = 0 then ⟨302, some "httpx://evil.example/", none⟩
  else ⟨200, none, none⟩

/-- A chain that redirects forever. -/
def respsAllRedirect : Nat → Resp := fun _ => ⟨301, some "http://loop.example/", none⟩

/-- A single plain 200 response at every hop. -/
def respsOk : Nat → Resp := fun _ => ⟨200, none, none⟩

/-- Trivial model of `new URL(loc, current)` for absolute locations. -/
def idResolve : String → String → String := fun loc _ => loc

/-- A fully populated file entry. -/
def fileW : FileEntry :=
  ⟨some "http://dl.example/f", some "file.bin", JsNum.fin 2048, some "http://th.example/t"⟩

/-- A file entry whose size field parses to NaN. -/
def fileNaN : FileEntry := ⟨some "http://dl.example/f", some "file.bin", JsNum.nan, none⟩

/-- A file entry whose size field (such as the literal text `1e999`) parses
to positive Infinity. -/
def fileInf : FileEntry := ⟨some "http://dl.example/f", some "file.bin", JsNum.inf, none⟩

/-- An oracle for a fully successful resolution. -/
def oracleW : RouteOracle := ⟨some "TOK", some "SURL", some fileW, "http://cdn.example/f"⟩

/-- An oracle whose resolution succeeds but whose size parses to NaN. -/
def oracleNaN : RouteOracle := ⟨some "TOK", some "SURL", some fileNaN, "http://cdn.example/f"⟩

/-- An oracle whose resolution succeeds but whose size parses to Infinity. -/
def oracleInf : RouteOracle := ⟨some "TOK", some "SURL", some fileInf, "http://cdn.example/f"⟩

/-- An oracle whose file-list step returns an empty list. -/
def oracleEmptyList : RouteOracle := ⟨some "TOK", some "SURL", none, ""⟩

/-- A plain metadata request. -/
def reqW : Req := ⟨some "http://share.example/s/1", false, false, none⟩

/-- A plain Netlify request. -/
def tbxReqW : TbxReq := ⟨some "http://share.example/s/1", false⟩

/-- A cached Netlify result. -/
def tbxResultW : TbxResult := ⟨"f", "l", "d", JsNum.fin 1, ""⟩

/-- A Netlify cache holding one entry that expired at time 5. -/
def tbxCacheStale : MemCache TbxResult :=
  [("http://share.example/s/1", ⟨tbxResultW, 5⟩)]

/-! ### Helper lemmas -/

/-- Membership in a `mapSet` result comes from the new pair or the old map. -/
theorem mem_mapSet {m : List (String × String)} {k v : String} {q : String × String}
    (hq : q ∈ mapSet m k v) : q = (k, v) ∨ q ∈ m := by
  unfold mapSet at hq
  split at hq
  · rcases List.mem_map.mp hq with ⟨p, hp, hpq⟩
    by_cases h : p.1 = k
    · left; rw [← hpq]; simp [h]
    · right; rw [← hpq]; simp [h]; exact hp
  · rcases List.mem_append.mp hq with h | h
    · right; exact h
    · left; simpa using h

/-- One `cookieStep` never introduces an attribute name as a key. -/
theorem cookieStep_attr_free {m : List (String × String)} (part : String)
    (hm : ∀ q ∈ m, ATTR_NAMES.contains (jsToLower q.1) = false) :
    ∀ q ∈ cookieStep m part, ATTR_NAMES.contains (jsToLower q.1) = false := by
  intro q hq
  unfold cookieStep at hq
  split at hq
  · exact hm q hq
  · exact hm q hq
  · simp only at hq
    split at hq
    · exact hm q hq
    · split at hq
      · exact hm q hq
      · rename_i hattr _
        split at hq
        · split at hq
          · exact hm q hq
          · rcases mem_mapSet hq with h | h
            · rw [h]; simpa using hattr
            · exact hm q h
        · rcases mem_mapSet hq with h | h
          · rw [h]; simpa using hattr
          · exact hm q h

/-- Folding `cookieStep` preserves attribute-freedom of the keys. -/
theorem foldl_cookieStep_attr_free (parts : List String) :
    ∀ m, (∀ q ∈ m, ATTR_NAMES.contains (jsToLower q.1) = false) →
      ∀ q ∈ parts.foldl cookieStep m, ATTR_NAMES.contains (jsToLower q.1) = false := by
  induction parts with
  | nil => intro m hm q hq; exact hm q hq
  | cons p ps ih => intro m hm q hq; exact ih _ (cookieStep_attr_free p hm) q hq

/-- Every key of a `headerSet` result is the (lowercased) new key or an old
key. -/
theorem hdrKeys_headerSet_cases {hs : HeaderList} {k v : String} {q : String}
    (hq : q ∈ hdrKeys (headerSet hs k v)) : q = jsToLower k ∨ q ∈ hdrKeys hs := by
  simp only [headerSet, hdrKeys] at hq ⊢
  split at hq
  · rcases List.mem_map.mp hq with ⟨p, hp, hpq⟩
    rcases List.mem_map.mp hp with ⟨p0, hp0, hpp⟩
    by_cases h : p0.1 = jsToLower k
    · left; rw [← hpq, ← hpp]; simp [h]
    · right; rw [← hpq, ← hpp]; simp only [if_neg h]
      exact List.mem_map.mpr ⟨p0, hp0, rfl⟩
  · rcases List.mem_map.mp hq with ⟨p, hp, hpq⟩
    rcases List.mem_append.mp hp with h | h
    · right; rw [← hpq]; exact List.mem_map.mpr ⟨p, h, rfl⟩
    · left; rw [← hpq]; simp at h; rw [h]

/-- `headerSet` never removes a key. -/
theorem hdrKeys_headerSet_mono {hs : HeaderList} {k v : String} {q : String}
    (hq : q ∈ hdrKeys hs) : q ∈ hdrKeys (headerSet hs k v) := by
  simp only [headerSet, hdrKeys] at hq ⊢
  rcases List.mem_map.mp hq with ⟨p, hp, hpq⟩
  split
  · by_cases h : p.1 = jsToLower k
    · exact List.mem_map.mpr ⟨_, List.mem_map.mpr ⟨p, hp, rfl⟩, by rw [← hpq]; simp [h]⟩
    · exact List.mem_map.mpr ⟨_, List.mem_map.mpr ⟨p, hp, rfl⟩, by rw [← hpq]; simp [h]⟩
  · exact List.mem_map.mpr ⟨p, List.mem_append.mpr (Or.inl hp), hpq⟩

/-- `headerSet` makes its (lowercased) key present. -/
theorem hdrKeys_headerSet_self (hs : HeaderList) (k v : String) :
    jsToLower k ∈ hdrKeys (headerSet hs k v) := by
  simp only [headerSet, hdrKeys]
  split
  · rename_i h
    rcases List.any_eq_true.mp h with ⟨p, hp, hpk⟩
    simp only [decide_eq_true_eq] at hpk
    exact List.mem_map.mpr ⟨_, List.mem_map.mpr ⟨p, hp, rfl⟩, by simp [hpk]⟩
  · exact List.mem_map.mpr ⟨(jsToLower k, v), List.mem_append.mpr (Or.inr (by simp)), rfl⟩

/-- Folding `headerSet` over a list never removes a key. -/
theorem hdrKeys_foldl_set_mono (l : List (String × String)) :
    ∀ acc q, q ∈ hdrKeys acc →
      q ∈ hdrKeys (l.foldl (fun acc p => headerSet acc p.1 p.2) acc) := by
  induction l with
  | nil => intro acc q h; simpa using h
  | cons p ps ih => intro acc q h; exact ih _ _ (hdrKeys_headerSet_mono h)

/-- Folding `headerSet` over a list makes every listed key present. -/
theorem hdrKeys_foldl_set_mem (l : List (String × String)) :
    ∀ acc k v, (k, v) ∈ l →
      jsToLower k ∈ hdrKeys (l.foldl (fun acc p => headerSet acc p.1 p.2) acc) := by
  induction l with
  | nil => intro acc k v h; simp at h
  | cons p ps ih =>
    intro acc k v h
    simp only [List.foldl_cons]
    rcases List.mem_cons.mp h with h | h
    · rw [← h]
      exact hdrKeys_foldl_set_mono ps _ _ (hdrKeys_headerSet_self acc (k, v).1 (k, v).2)
    · exact ih _ k v h

/-- Every key the api-variant filter accumulates starts with `content` or is
`accept-ranges`. -/
theorem apiFoldKeysOk (l : List (String × String)) :
    ∀ acc, (∀ q ∈ hdrKeys acc, jsStartsWith q "content" = true ∨ q = "accept-ranges") →
      ∀ q ∈ hdrKeys (l.foldl
        (fun acc p =>
          if jsStartsWith (jsToLower p.1) "content" || jsToLower p.1 = "accept-ranges"
          then headerSet acc p.1 p.2 else acc) acc),
        jsStartsWith q "content" = true ∨ q = "accept-ranges" := by
  induction l with
  | nil => intro acc hacc q hq; exact hacc q hq
  | cons p ps ih =>
    intro acc hacc q hq
    simp only [List.foldl_cons] at hq
    refine ih _ ?_ q hq
    intro r hr
    simp only at hr
    split at hr
    · rename_i hcond
      rcases hdrKeys_headerSet_cases hr with h | h
      · have hcond2 : jsStartsWith (jsToLower p.1) "content" = true
            ∨ jsToLower p.1 = "accept-ranges" := by simpa using hcond
        rw [h]
        exact hcond2
      · exact hacc r h
    · exact hacc r hr

/-- Unfolding of `isPrefixStr` to list prefixes. -/
theorem isPrefixStr_iff {a b : String} : isPrefixStr a b = true ↔ a.data <+: b.data := by
  simp [isPrefixStr]

/-- Reflexivity of the string prefix test. -/
theorem isPrefixStr_refl (a : String) : isPrefixStr a a = true :=
  isPrefixStr_iff.mpr (List.prefix_refl _)

/-- Transitivity of the string prefix test. -/
theorem isPrefixStr_trans {a b c : String} (hab : isPrefixStr a b = true)
    (hbc : isPrefixStr b c = true) : isPrefixStr a c = true :=
  isPrefixStr_iff.mpr ((isPrefixStr_iff.mp hab).trans (isPrefixStr_iff.mp hbc))

/-- A string is a prefix of itself extended twice to the right. -/
theorem isPrefixStr_append2 (a b c : String) : isPrefixStr a (a ++ b ++ c) = true := by
  rw [isPrefixStr_iff, String.data_append, String.data_append, List.append_assoc]
  exact List.prefix_append _ _

/-- The whole-value cookie merge only extends the store. -/
theorem mergeWhole_extends (store : String) (sc : Option String) :
    isPrefixStr store (mergeWhole store sc) = true := by
  cases sc with
  | none => exact isPrefixStr_refl _
  | some s =>
    by_cases hs : s = ""
    · have h : mergeWhole store (some s) = store := by simp [mergeWhole, hs]
      rw [h]; exact isPrefixStr_refl _
    · have h : mergeWhole store (some s) =
          store ++ (if store = "" then "" else "; ") ++ s := by simp [mergeWhole, hs]
      rw [h]; exact isPrefixStr_append2 _ _ _

/-- The raw pair cookie merge only extends the store. -/
theorem mergePairRaw_extends (store : String) (sc : Option String) :
    isPrefixStr store (mergePairRaw store sc) = true := by
  cases sc with
  | none => exact isPrefixStr_refl _
  | some s =>
    by_cases hs : s = ""
    · have h : mergePairRaw store (some s) = store := by simp [mergePairRaw, hs]
      rw [h]; exact isPrefixStr_refl _
    · have h : mergePairRaw store (some s) =
          store ++ (if store = "" then "" else "; ") ++ firstFragment s := by
        simp [mergePairRaw, hs]
      rw [h]; exact isPrefixStr_append2 _ _ _

/-- The de-duplicating pair cookie merge only extends the store. -/
theorem mergePair_extends (store : String) (sc : Option String) :
    isPrefixStr store (mergePair store sc) = true := by
  cases sc with
  | none => exact isPrefixStr_refl _
  | some s =>
    by_cases hs : s = ""
    · have h : mergePair store (some s) = store := by simp [mergePair, hs]
      rw [h]; exact isPrefixStr_refl _
    · by_cases hinc : jsIncludes store (firstFragment s) = true
      · have h : mergePair store (some s) = store := by simp [mergePair, hs, hinc]
        rw [h]; exact isPrefixStr_refl _
      · have h : mergePair store (some s) =
            store ++ (if store = "" then "" else "; ") ++ firstFragment s := by
          simp [mergePair, hs, hinc]
        rw [h]; exact isPrefixStr_append2 _ _ _

/-- With fuel left, the api-variant loop records its first request, with the
entry cookie store, at the head of the trace. -/
theorem fetchFwcGo_trace_head (resps : Nat → Resp) (resolve : String → String → String)
    (fuel i : Nat) (url store : String) (hf : 0 < fuel) :
    ∃ rest, (fetchFwcGo resps resolve fuel i url store).2 = (url, store) :: rest := by
  cases fuel with
  | zero => omega
  | succ f =>
    unfold fetchFwcGo
    simp only
    split
    · split
      · exact ⟨[], rfl⟩
      · split
        · exact ⟨[], rfl⟩
        · exact ⟨_, rfl⟩
    · exact ⟨[], rfl⟩

/-- With fuel left, the Netlify-variant loop records its first request, with
the entry cookie store, at the head of the trace. -/
theorem fetchFcGo_trace_head (resps : Nat → Resp) (resolve : String → String → String)
    (fuel i : Nat) (url store : String) (hf : 0 < fuel) :
    ∃ rest, (fetchFcGo resps resolve fuel i url store).2 = (url, store) :: rest := by
  cases fuel with
  | zero => omega
  | succ f =>
    unfold fetchFcGo
    simp only
    split
    · exact ⟨[], rfl⟩
    · split
      · exact ⟨[], rfl⟩
      · split
        · exact ⟨[], rfl⟩
        · exact ⟨_, rfl⟩

/-- Monotonicity invariant of the api-variant loop: every sent Cookie value
and the returned cookie extend the entry store, and the successive cookie
values (final included) form a prefix chain. -/
theorem fetchFwcGo_monotone (resps : Nat → Resp) (resolve : String → String → String) :
    ∀ fuel i url store,
      (∀ p ∈ (fetchFwcGo resps resolve fuel i url store).2, isPrefixStr store p.2 = true)
      ∧ (∀ fr, (fetchFwcGo resps resolve fuel i url store).1 = some fr →
          isPrefixStr store fr.cookie = true)
      ∧ List.Chain' (fun a b => isPrefixStr a b = true)
          ((fetchFwcGo resps resolve fuel i url store).2.map Prod.snd
            ++ (match (fetchFwcGo resps resolve fuel i url store).1 with
                | some fr => [fr.cookie]
                | none => [])) := by
  intro fuel
  induction fuel with
  | zero =>
    intro i url store
    refine ⟨?_, ?_, ?_⟩ <;> simp [fetchFwcGo, List.chain'_nil]
  | succ f ih =>
    intro i url store
    unfold fetchFwcGo
    simp only
    split
    · split
      · refine ⟨?_, ?_, ?_⟩
        · intro p hp
          simp only [List.mem_singleton] at hp
          rw [hp]; exact isPrefixStr_refl _
        · intro fr hfr
          simp only [Option.some.injEq] at hfr
          rw [← hfr]; exact mergeWhole_extends _ _
        · show List.Chain' (fun a b => isPrefixStr a b = true)
            [store, mergeWhole store (resps i).setCookie]
          exact List.chain'_cons.mpr ⟨mergeWhole_extends _ _, List.chain'_singleton _⟩
      · rename_i l hleq
        split
        · refine ⟨?_, ?_, ?_⟩
          · intro p hp
            simp only [List.mem_singleton] at hp
            rw [hp]; exact isPrefixStr_refl _
          · intro fr hfr
            simp only [Option.some.injEq] at hfr
            rw [← hfr]; exact mergeWhole_extends _ _
          · show List.Chain' (fun a b => isPrefixStr a b = true)
              [store, mergeWhole store (resps i).setCookie]
            exact List.chain'_cons.mpr ⟨mergeWhole_extends _ _, List.chain'_singleton _⟩
        · obtain ⟨ih1, ih2, ih3⟩ := ih (i + 1)
            (if jsStartsWith l "http" then l else resolve l url)
            (mergeWhole store (resps i).setCookie)
          refine ⟨?_, ?_, ?_⟩
          · intro p hp
            simp only [List.mem_cons] at hp
            rcases hp with hp | hp
            · rw [hp]; exact isPrefixStr_refl _
            · exact isPrefixStr_trans (mergeWhole_extends _ _) (ih1 p hp)
          · intro fr hfr
            exact isPrefixStr_trans (mergeWhole_extends _ _) (ih2 fr hfr)
          · show List.Chain' (fun a b => isPrefixStr a b = true)
              (store ::
                ((fetchFwcGo resps resolve f (i + 1)
                    (if jsStartsWith l "http" then l else resolve l url)
                    (mergeWhole store (resps i).setCookie)).2.map Prod.snd
                  ++ (match (fetchFwcGo resps resolve f (i + 1)
                        (if jsStartsWith l "http" then l else resolve l url)
                        (mergeWhole store (resps i).setCookie)).1 with
                      | some fr => [fr.cookie]
                      | none => [])))
            rw [List.chain'_cons']
            refine ⟨?_, ih3⟩
            intro y hy
            rcases Nat.eq_zero_or_pos f with hf | hf
            · subst hf
              simp [fetchFwcGo] at hy
            · obtain ⟨rest, hrest⟩ := fetchFwcGo_trace_head resps resolve f (i + 1)
                (if jsStartsWith l "http" then l else resolve l url)
                (mergeWhole store (resps i).setCookie) hf
              rw [hrest] at hy
              simp only [List.map_cons, List.cons_append, List.head?_cons,
                Option.mem_def, Option.some.injEq] at hy
              rw [← hy]
              exact mergeWhole_extends _ _
    · refine ⟨?_, ?_, ?_⟩
      · intro p hp
        simp only [List.mem_singleton] at hp
        rw [hp]; exact isPrefixStr_refl _
      · intro fr hfr
        simp only [Option.some.injEq] at hfr
        rw [← hfr]; exact mergeWhole_extends _ _
      · show List.Chain' (fun a b => isPrefixStr a b = true)
          [store, mergeWhole store (resps i).setCookie]
        exact List.chain'_cons.mpr ⟨mergeWhole_extends _ _, List.chain'_singleton _⟩

/-- Monotonicity invariant of the Netlify-variant loop: every sent Cookie
value extends the entry store and the successive sent values form a prefix
chain. -/
theorem fetchFcGo_monotone (resps : Nat → Resp) (resolve : String → String → String) :
    ∀ fuel i url store,
      (∀ p ∈ (fetchFcGo resps resolve fuel i url store).2, isPrefixStr store p.2 = true)
      ∧ List.Chain' (fun a b => isPrefixStr a b = true)
          ((fetchFcGo resps resolve fuel i url store).2.map Prod.snd) := by
  intro fuel
  induction fuel with
  | zero =>
    intro i url store
    refine ⟨?_, ?_⟩ <;> simp [fetchFcGo, List.chain'_nil]
  | succ f ih =>
    intro i url store
    unfold fetchFcGo
    simp only
    split
    · refine ⟨?_, ?_⟩
      · intro p hp
        simp only [List.mem_singleton] at hp
        rw [hp]; exact isPrefixStr_refl _
      · show List.Chain' (fun a b => isPrefixStr a b = true) [store]
        exact List.chain'_singleton _
    · split
      · refine ⟨?_, ?_⟩
        · intro p hp
          simp only [List.mem_singleton] at hp
          rw [hp]; exact isPrefixStr_refl _
        · show List.Chain' (fun a b => isPrefixStr a b = true) [store]
          exact List.chain'_singleton _
      · rename_i l hleq
        split
        · refine ⟨?_, ?_⟩
          · intro p hp
            simp only [List.mem_singleton] at hp
            rw [hp]; exact isPrefixStr_refl _
          · show List.Chain' (fun a b => isPrefixStr a b = true) [store]
            exact List.chain'_singleton _
        · obtain ⟨ih1, ih2⟩ := ih (i + 1)
            (if jsStartsWith l "http" then l else resolve l url)
            (mergePair store (resps i).setCookie)
          refine ⟨?_, ?_⟩
          · intro p hp
            simp only [List.mem_cons] at hp
            rcases hp with hp | hp
            · rw [hp]; exact isPrefixStr_refl _
            · exact isPrefixStr_trans (mergePair_extends _ _) (ih1 p hp)
          · show List.Chain' (fun a b => isPrefixStr a b = true)
              (store ::
                (fetchFcGo resps resolve f (i + 1)
                  (if jsStartsWith l "http" then l else resolve l url)
                  (mergePair store (resps i).setCookie)).2.map Prod.snd)
            rw [List.chain'_cons']
            refine ⟨?_, ih2⟩
            intro y hy
            rcases Nat.eq_zero_or_pos f with hf | hf
            · subst hf
              simp [fetchFcGo] at hy
            · obtain ⟨rest, hrest⟩ := fetchFcGo_trace_head resps resolve f (i + 1)
                (if jsStartsWith l "http" then l else resolve l url)
                (mergePair store (resps i).setCookie) hf
              rw [hrest] at hy
              simp only [List.map_cons, List.head?_cons, Option.mem_def,
                Option.some.injEq] at hy
              rw [← hy]
              exact mergePair_extends _ _

/-- Destructor for a hop recognized as redirecting. -/
theorem isRedirectHop_true_elim {r : Resp} (h : isRedirectHop r = true) :
    (300 ≤ r.status ∧ r.status < 400) ∧ ∃ l, r.location = some l ∧ l ≠ "" := by
  unfold isRedirectHop at h
  split at h
  · rename_i h3
    refine ⟨h3, ?_⟩
    split at h
    · simp at h
    · rename_i s heq
      split at h
      · simp at h
      · rename_i hs
        exact ⟨s, heq, hs⟩
  · simp at h

/-- Destructor for a hop recognized as terminal. -/
theorem isRedirectHop_false_elim {r : Resp} (h : isRedirectHop r = false) :
    ¬(300 ≤ r.status ∧ r.status < 400) ∨ r.location = none ∨ r.location = some "" := by
  unfold isRedirectHop at h
  split at h
  · split at h
    · rename_i heq
      right; left; exact heq
    · rename_i s heq
      split at h
      · rename_i hs
        right; right; rw [heq, hs]
      · simp at h
  · rename_i h3
    left; exact h3

/-- The api-variant loop stops at the first terminal hop and returns its
response, provided the terminal hop is inside the budget. -/
theorem fetchFwcGo_terminal (resps : Nat → Resp) (resolve : String → String → String) :
    ∀ n fuel i url store, n < fuel →
      (∀ j, j < n → isRedirectHop (resps (i + j)) = true) →
      isRedirectHop (resps (i + n)) = false →
      ∃ c t, fetchFwcGo resps resolve fuel i url store = (some ⟨resps (i + n), c⟩, t) := by
  intro n
  induction n with
  | zero =>
    intro fuel i url store hn hall hterm
    cases fuel with
    | zero => omega
    | succ f =>
      rw [Nat.add_zero] at hterm
      unfold fetchFwcGo
      simp only
      split
      · rename_i h3xx
        rcases isRedirectHop_false_elim hterm with h | h | h
        · exact absurd h3xx h
        · refine ⟨mergeWhole store (resps i).setCookie, [(url, store)], ?_⟩
          simp [h]
        · refine ⟨mergeWhole store (resps i).setCookie, [(url, store)], ?_⟩
          simp [h]
      · exact ⟨mergeWhole store (resps i).setCookie, [(url, store)], rfl⟩
  | succ m ih =>
    intro fuel i url store hn hall hterm
    cases fuel with
    | zero => omega
    | succ f =>
      have hred := hall 0 (Nat.succ_pos m)
      rw [Nat.add_zero] at hred
      obtain ⟨h3xx, l, hloc, hl⟩ := isRedirectHop_true_elim hred
      unfold fetchFwcGo
      simp only
      rw [if_pos h3xx]
      simp only [hloc]
      rw [if_neg hl]
      obtain ⟨c, t, hrc⟩ := ih f (i + 1)
        (if jsStartsWith l "http" then l else resolve l url)
        (mergeWhole store (resps i).setCookie)
        (by omega)
        (fun j hj => by
          have := hall (j + 1) (by omega)
          rwa [show i + (j + 1) = i + 1 + j by omega] at this)
        (by rwa [show i + 1 + m = i + (m + 1) by omega])
      refine ⟨c, (url, store) :: t, ?_⟩
      rw [show i + (m + 1) = i + 1 + m by omega, hrc]

/-- The api-variant loop returns `none` (the thrown `Too many redirects`)
when every hop inside the budget redirects. -/
theorem fetchFwcGo_exhaust (resps : Nat → Resp) (resolve : String → String → String) :
    ∀ fuel i url store, (∀ j, j < fuel → isRedirectHop (resps (i + j)) = true) →
      (fetchFwcGo resps resolve fuel i url store).1 = none := by
  intro fuel
  induction fuel with
  | zero => intro i url store _; rfl
  | succ f ih =>
    intro i url store hall
    have hred := hall 0 (Nat.succ_pos f)
    rw [Nat.add_zero] at hred
    obtain ⟨h3xx, l, hloc, hl⟩ := isRedirectHop_true_elim hred
    unfold fetchFwcGo
    simp only
    rw [if_pos h3xx]
    simp only [hloc]
    rw [if_neg hl]
    exact ih (i + 1) _ _ (fun j hj => by
      have := hall (j + 1) (by omega)
      rwa [show i + (j + 1) = i + 1 + j by omega] at this)

/-- The Netlify-variant loop stops at the first terminal hop and returns it,
provided the terminal hop is inside the budget. -/
theorem fetchFcGo_terminal (resps : Nat → Resp) (resolve : String → String → String) :
    ∀ n fuel i url store, n < fuel →
      (∀ j, j < n → isRedirectHop (resps (i + j)) = true) →
      isRedirectHop (resps (i + n)) = false →
      ∃ t, fetchFcGo resps resolve fuel i url store = (some (resps (i + n)), t) := by
  intro n
  induction n with
  | zero =>
    intro fuel i url store hn hall hterm
    cases fuel with
    | zero => omega
    | succ f =>
      rw [Nat.add_zero] at hterm
      unfold fetchFcGo
      simp only
      split
      · exact ⟨[(url, store)], rfl⟩
      · rename_i h3xx
        rw [not_not] at h3xx
        rcases isRedirectHop_false_elim hterm with h | h | h
        · exact absurd h3xx h
        · refine ⟨[(url, store)], ?_⟩
          simp [h]
        · refine ⟨[(url, store)], ?_⟩
          simp [h]
  | succ m ih =>
    intro fuel i url store hn hall hterm
    cases fuel with
    | zero => omega
    | succ f =>
      have hred := hall 0 (Nat.succ_pos m)
      rw [Nat.add_zero] at hred
      obtain ⟨h3xx, l, hloc, hl⟩ := isRedirectHop_true_elim hred
      unfold fetchFcGo
      simp only
      rw [if_neg (not_not_intro h3xx)]
      simp only [hloc]
      rw [if_neg hl]
      obtain ⟨t, hrc⟩ := ih f (i + 1)
        (if jsStartsWith l "http" then l else resolve l url)
        (mergePair store (resps i).setCookie)
        (by omega)
        (fun j hj => by
          have := hall (j + 1) (by omega)
          rwa [show i + (j + 1) = i + 1 + j by omega] at this)
        (by rwa [show i + 1 + m = i + (m + 1) by omega])
      refine ⟨(url, store) :: t, ?_⟩
      rw [show i + (m + 1) = i + 1 + m by omega, hrc]

/-- The Netlify-variant loop returns `none` when every hop inside the budget
redirects. -/
theorem fetchFcGo_exhaust (resps : Nat → Resp) (resolve : String → String → String) :
    ∀ fuel i url store, (∀ j, j < fuel → isRedirectHop (resps (i + j)) = true) →
      (fetchFcGo resps resolve fuel i url store).1 = none := by
  intro fuel
  induction fuel with
  | zero => intro i url store _; rfl
  | succ f ih =>
    intro i url store hall
    have hred := hall 0 (Nat.succ_pos f)
    rw [Nat.add_zero] at hred
    obtain ⟨h3xx, l, hloc, hl⟩ := isRedirectHop_true_elim hred
    unfold fetchFcGo
    simp only
    rw [if_neg (not_not_intro h3xx)]
    simp only [hloc]
    rw [if_neg hl]
    exact ih (i + 1) _ _ (fun j hj => by
      have := hall (j + 1) (by omega)
      rwa [show i + (j + 1) = i + 1 + j by omega] at this)

/-- `cfPut` makes its entry the one `cfGet` finds. -/
theorem cfGet_cfPut_self (c : CFCache) (k : String) (v : CachedResult) :
    cfGet (cfPut c k v) k = some v := by
  unfold cfGet cfPut
  rw [List.find?_cons_of_pos _ (by simp)]
  rfl

/-- A `find?` hit on a key after all entries of another key were filtered out
was already a hit before the filtering. -/
theorem find?_filter_ne {α : Type} {c : List (String × α)} {k q : String}
    {e : String × α}
    (h : (c.filter (fun p => p.1 ≠ k)).find? (fun p => p.1 = q) = some e) :
    c.find? (fun p => p.1 = q) = some e := by
  induction c with
  | nil => simp at h
  | cons a l ih =>
    by_cases hak : a.1 = k
    · rw [List.filter_cons_of_neg (by simp [hak])] at h
      by_cases haq : a.1 = q
      · exfalso
        have hmem := List.mem_of_find?_eq_some h
        have hpred := List.find?_some h
        have hne := (List.mem_filter.mp hmem).2
        simp only [decide_eq_true_eq] at hpred hne
        exact hne (by rw [hpred, ← haq, hak])
      · rw [List.find?_cons_of_neg _ (by simp [haq])]
        exact ih h
    · rw [List.filter_cons_of_pos (by simp [hak])] at h
      by_cases haq : a.1 = q
      · rw [List.find?_cons_of_pos _ (by simp [haq])] at h ⊢
        exact h
      · rw [List.find?_cons_of_neg _ (by simp [haq])] at h ⊢
        exact ih h

/-- Whatever `getCache` does (including its lazy eviction), every entry still
found afterwards was already present, unchanged, before the call. -/
theorem memGet_submap {α : Type} {now : Nat} {c : MemCache α} {k q : String}
    {e : String × CacheEntry α}
    (h : ((memGet now c k).2).find? (fun p => p.1 = q) = some e) :
    c.find? (fun p => p.1 = q) = some e := by
  unfold memGet at h
  split at h
  · exact h
  · split at h
    · exact find?_filter_ne h
    · exact h

/-- After a `getCache` miss, the surviving cache holds no entry at that key. -/
theorem memGet_none_find {α : Type} (now : Nat) (c : MemCache α) (k : String)
    (h : (memGet now c k).1 = none) :
    ((memGet now c k).2).find? (fun p => p.1 = k) = none := by
  unfold memGet at h ⊢
  cases hfind : c.find? (fun p => p.1 = k) with
  | none =>
    simp only [hfind]
  | some e =>
    simp only [hfind] at h ⊢
    by_cases hexp : e.2.expire < now
    · rw [if_pos hexp]
      simp only
      rw [List.find?_eq_none]
      intro x hx
      have hne := (List.mem_filter.mp hx).2
      simpa using hne
    · rw [if_neg hexp] at h
      simp at h

/-- A key without a `find?` hit also fails the `any` key test. -/
theorem find?_none_any_false {α : Type} {c : List (String × α)} {k : String}
    (h : c.find? (fun p => p.1 = k) = none) :
    c.any (fun p => p.1 = k) = false := by
  rw [List.any_eq_false]
  intro x hx
  have h2 := List.find?_eq_none.mp h x hx
  simpa using h2

/-- `find?` skips a first block with no hit. -/
theorem find?_append_of_none {γ : Type} {l1 l2 : List γ} {p : γ → Bool}
    (h : l1.find? p = none) : (l1 ++ l2).find? p = l2.find? p := by
  induction l1 with
  | nil => simp
  | cons a l ih =>
    rw [List.cons_append]
    cases hpa : p a with
    | false =>
      rw [List.find?_cons_of_neg _ (by simp [hpa])] at h
      rw [List.find?_cons_of_neg _ (by simp [hpa])]
      exact ih h
    | true =>
      rw [List.find?_cons_of_pos _ hpa] at h
      simp at h

/-- A fresh, unexpired `setCache` entry is returned by `getCache`. -/
theorem memGet_after_set {α : Type} (now0 ttl now : Nat)
    (c : List (String × CacheEntry α)) (k : String) (v : α)
    (hfind : c.find? (fun p => p.1 = k) = none) (hvalid : ¬(now0 + ttl < now)) :
    memGet now (memSet now0 ttl c k v) k = (some v, memSet now0 ttl c k v) := by
  have hset : memSet now0 ttl c k v = c ++ [(k, ⟨v, now0 + ttl⟩)] := by
    unfold memSet
    rw [find?_none_any_false hfind]
    simp
  rw [hset]
  unfold memGet
  rw [find?_append_of_none hfind, List.find?_cons_of_pos _ (by simp)]
  simp [hvalid]

/-- `find?` is unchanged by overwriting the value stored at a different key. -/
theorem find?_mapSet_ne {l : HeaderList} {kl ql v : String} (h : kl ≠ ql) :
    (l.map (fun p => if p.1 = kl then (kl, v) else p)).find? (fun p => p.1 = ql)
      = l.find? (fun p => p.1 = ql) := by
  induction l with
  | nil => rfl
  | cons a l ih =>
    simp only [List.map_cons]
    by_cases hak : a.1 = kl
    · rw [if_pos hak]
      rw [List.find?_cons_of_neg _ (by simp [h])]
      rw [List.find?_cons_of_neg _ (by simp [hak, h])]
      exact ih
    · rw [if_neg hak]
      by_cases haq : a.1 = ql
      · rw [List.find?_cons_of_pos _ (by simp [haq]), List.find?_cons_of_pos _ (by simp [haq])]
      · rw [List.find?_cons_of_neg _ (by simp [haq]), List.find?_cons_of_neg _ (by simp [haq])]
        exact ih

/-- `find?` is unchanged by appending an entry with a different key. -/
theorem find?_append_single_ne {l : HeaderList} {kl ql v : String} (h : kl ≠ ql) :
    (l ++ [(kl, v)]).find? (fun p => p.1 = ql) = l.find? (fun p => p.1 = ql) := by
  induction l with
  | nil => simp [List.find?, h]
  | cons a l ih =>
    rw [List.cons_append]
    by_cases haq : a.1 = ql
    · rw [List.find?_cons_of_pos _ (by simp [haq]), List.find?_cons_of_pos _ (by simp [haq])]
    · rw [List.find?_cons_of_neg _ (by simp [haq]), List.find?_cons_of_neg _ (by simp [haq])]
      exact ih

/-- `Headers.get` of one name is unchanged by `Headers.set` of another. -/
theorem headerGet_headerSet_ne (hs : HeaderList) (k q v : String)
    (h : jsToLower k ≠ jsToLower q) :
    headerGet (headerSet hs k v) q = headerGet hs q := by
  simp only [headerGet, headerSet]
  split
  · rw [find?_mapSet_ne h]
  · rw [find?_append_single_ne h]

/-- Every error path of the Netlify resolution leaves the cache it was given
untouched. -/
theorem teraboxResolve_err_cache (shareUrl : String) (req : TbxReq) (o : RouteOracle)
    (now : Nat) (cache : MemCache TbxResult)
    (herr : isErrTbx (teraboxResolve shareUrl req o now cache).1 = true) :
    (teraboxResolve shareUrl req o now cache).2.1 = cache := by
  obtain ⟨ojs, osurl, ofile, odl⟩ := o
  cases ojs with
  | none => rfl
  | some tok =>
    cases osurl with
    | none => rfl
    | some surl =>
      cases ofile with
      | none => rfl
      | some f =>
        obtain ⟨fdl, fn, fs, ft⟩ := f
        cases fdl with
        | none => rfl
        | some d =>
          exfalso
          obtain ⟨rdata, rdownload⟩ := req
          cases rdownload <;> simp [teraboxResolve, isErrTbx] at herr

/-! ### Claim theorems -/

/-- C2 (amended): for a successful resolution, the handlers that probe the
cache before any upstream call (`app/api/route.ts` keyed by the share URL,
`netlify/functions/terabox.js` keyed by the share URL) answer a repeated
request within the TTL entirely from the cache, so the share-page, file-list
and direct-link steps each run exactly once across the two invocations; the
`src/unnamed/part_001` handler keys its cache by `surl` and probes it only
after fetching the share page, so its file-list and direct-link steps run
once but its share-page fetch runs on both invocations. -/
theorem C2_cache_single_negotiation
    (u surl tok d : String) (req : Req) (o : RouteOracle) (cache0 : CFCache)
    (f : FileEntry)
    (hdata : req.data = some u) (hp : req.hasProxy = false) (hd : req.hasDownload = false)
    (hj : o.jsToken = some tok) (hs : o.surl = some surl)
    (hf : o.file = some f) (hdl : f.dlink = some d) (hdir : o.directLink ≠ "")
    (hmiss : cfGet cache0 u = none)
    (now1 now2 : Nat) (mc0 : MemCache CachedResult)
    (hmiss1 : (memGet now1 mc0 surl).1 = none) (httl : ¬(now1 + 25 * 60 * 1000 < now2))
    (treq : TbxReq) (htd : treq.data = some u) (htdl : treq.download = false)
    (tnow1 tnow2 : Nat) (tc0 : MemCache TbxResult)
    (htmiss : (memGet tnow1 tc0 u).1 = none) (htttl : ¬(tnow1 + 10 * 60 * 1000 < tnow2)) :
    ((routeGET req o cache0).2.2 = [.page, .list, .dlink]
      ∧ (routeGET req o (routeGET req o cache0).2.1).2.2 = []
      ∧ (routeGET req o (routeGET req o cache0).2.1).1 = (routeGET req o cache0).1)
    ∧ ((part1GET req o now1 mc0).2.2 = [.page, .list, .dlink]
      ∧ (part1GET req o now2 (part1GET req o now1 mc0).2.1).2.2 = [.page]
      ∧ (part1GET req o now2 (part1GET req o now1 mc0).2.1).1 = (part1GET req o now1 mc0).1)
    ∧ ((teraboxHandler treq o tnow1 tc0).2.2 = [.tokenPage, .page, .list, .dlink]
      ∧ (teraboxHandler treq o tnow2 (teraboxHandler treq o tnow1 tc0).2.1).2.2 = []
      ∧ (teraboxHandler treq o tnow2 (teraboxHandler treq o tnow1 tc0).2.1).1
          = (teraboxHandler treq o tnow1 tc0).1) := by
  refine ⟨?_, ?_, ?_⟩
  · -- route.ts: probe first, cache the result, answer the repeat from it
    have r1 : routeGET req o cache0 =
        (.json 200 ⟨f.server_filename.getD "", d, o.directLink, f.thumb.getD "",
            getFormattedSizeRoute f.sizeNum, jsOrZero f.sizeNum⟩,
          cfPut cache0 u ⟨f.server_filename.getD "", d, o.directLink, f.thumb.getD "",
            getFormattedSizeRoute f.sizeNum, jsOrZero f.sizeNum⟩,
          [.page, .list, .dlink]) := by
      simp [routeGET, hdata, hmiss, hj, hs, hf, hdl, hp, hd, hdir]
    have r2 : routeGET req o (cfPut cache0 u
        ⟨f.server_filename.getD "", d, o.directLink, f.thumb.getD "",
          getFormattedSizeRoute f.sizeNum, jsOrZero f.sizeNum⟩) =
        (.json 200 ⟨f.server_filename.getD "", d, o.directLink, f.thumb.getD "",
            getFormattedSizeRoute f.sizeNum, jsOrZero f.sizeNum⟩,
          cfPut cache0 u ⟨f.server_filename.getD "", d, o.directLink, f.thumb.getD "",
            getFormattedSizeRoute f.sizeNum, jsOrZero f.sizeNum⟩,
          []) := by
      simp [routeGET, hdata, hp, hd, cfGet_cfPut_self]
    refine ⟨?_, ?_, ?_⟩ <;> simp [r1, r2]
  · -- part_001: cache keyed by surl, probed only after the share-page fetch
    rcases hm1 : memGet now1 mc0 surl with ⟨mval, mc1⟩
    have hmval : mval = none := by
      rw [hm1] at hmiss1
      exact hmiss1
    subst hmval
    have hfind1 : mc1.find? (fun p => p.1 = surl) = none := by
      have h0 := memGet_none_find now1 mc0 surl (by rw [hm1])
      rw [hm1] at h0
      exact h0
    have p1 : part1GET req o now1 mc0 =
        (.json 200 ⟨f.server_filename.getD "", d, o.directLink, f.thumb.getD "",
            getFormattedSizeRoute f.sizeNum, jsOrZero f.sizeNum⟩,
          memSet now1 (25 * 60 * 1000) mc1 surl
            ⟨f.server_filename.getD "", d, o.directLink, f.thumb.getD "",
              getFormattedSizeRoute f.sizeNum, jsOrZero f.sizeNum⟩,
          [.page, .list, .dlink]) := by
      simp [part1GET, hdata, hj, hs, hm1, hf, hdl, hd, hdir]
    have hget2 := memGet_after_set now1 (25 * 60 * 1000) now2 mc1 surl
      ⟨f.server_filename.getD "", d, o.directLink, f.thumb.getD "",
        getFormattedSizeRoute f.sizeNum, jsOrZero f.sizeNum⟩ hfind1 httl
    have p2 : part1GET req o now2 (memSet now1 (25 * 60 * 1000) mc1 surl
        ⟨f.server_filename.getD "", d, o.directLink, f.thumb.getD "",
          getFormattedSizeRoute f.sizeNum, jsOrZero f.sizeNum⟩) =
        (.json 200 ⟨f.server_filename.getD "", d, o.directLink, f.thumb.getD "",
            getFormattedSizeRoute f.sizeNum, jsOrZero f.sizeNum⟩,
          memSet now1 (25 * 60 * 1000) mc1 surl
            ⟨f.server_filename.getD "", d, o.directLink, f.thumb.getD "",
              getFormattedSizeRoute f.sizeNum, jsOrZero f.sizeNum⟩,
          [.page]) := by
      simp [part1GET, hdata, hj, hs, hget2]
    refine ⟨?_, ?_, ?_⟩ <;> simp [p1, p2]
  · -- terabox.js: probe first, cache the result, answer the repeat from it
    rcases hm1 : memGet tnow1 tc0 u with ⟨tval, tc1⟩
    have htval : tval = none := by
      rw [hm1] at htmiss
      exact htmiss
    subst htval
    have hfind1 : tc1.find? (fun p => p.1 = u) = none := by
      have h0 := memGet_none_find tnow1 tc0 u (by rw [hm1])
      rw [hm1] at h0
      exact h0
    have t1 : teraboxHandler treq o tnow1 tc0 =
        (.ok 200 ⟨f.server_filename.getD "", d, o.directLink, jsOrZero f.sizeNum,
            f.thumb.getD ""⟩,
          memSet tnow1 (10 * 60 * 1000) tc1 u
            ⟨f.server_filename.getD "", d, o.directLink, jsOrZero f.sizeNum, f.thumb.getD ""⟩,
          [.tokenPage, .page, .list, .dlink]) := by
      simp [teraboxHandler, teraboxResolve, htd, hm1, hj, hs, hf, hdl, htdl]
    have hget2 := memGet_after_set tnow1 (10 * 60 * 1000) tnow2 tc1 u
      ⟨f.server_filename.getD "", d, o.directLink, jsOrZero f.sizeNum, f.thumb.getD ""⟩
      hfind1 htttl
    have t2 : teraboxHandler treq o tnow2 (memSet tnow1 (10 * 60 * 1000) tc1 u
        ⟨f.server_filename.getD "", d, o.directLink, jsOrZero f.sizeNum, f.thumb.getD ""⟩) =
        (.ok 200 ⟨f.server_filename.getD "", d, o.directLink, jsOrZero f.sizeNum,
            f.thumb.getD ""⟩,
          memSet tnow1 (10 * 60 * 1000) tc1 u
            ⟨f.server_filename.getD "", d, o.directLink, jsOrZero f.sizeNum, f.thumb.getD ""⟩,
          []) := by
      simp [teraboxHandler, htd, hget2, htdl]
    refine ⟨?_, ?_, ?_⟩ <;> simp [t1, t2]

/-- C2 witness: concrete successful resolution through all three handlers,
starting from empty caches at time 0 and repeating at time 1. -/
theorem C2_cache_single_negotiation_witness :
    ((routeGET reqW oracleW []).2.2 = [.page, .list, .dlink]
      ∧ (routeGET reqW oracleW (routeGET reqW oracleW []).2.1).2.2 = []
      ∧ (routeGET reqW oracleW (routeGET reqW oracleW []).2.1).1 = (routeGET reqW oracleW []).1)
    ∧ ((part1GET reqW oracleW 0 []).2.2 = [.page, .list, .dlink]
      ∧ (part1GET reqW oracleW 1 (part1GET reqW oracleW 0 []).2.1).2.2 = [.page]
      ∧ (part1GET reqW oracleW 1 (part1GET reqW oracleW 0 []).2.1).1
          = (part1GET reqW oracleW 0 []).1)
    ∧ ((teraboxHandler tbxReqW oracleW 0 []).2.2 = [.tokenPage, .page, .list, .dlink]
      ∧ (teraboxHandler tbxReqW oracleW 1 (teraboxHandler tbxReqW oracleW 0 []).2.1).2.2 = []
      ∧ (teraboxHandler tbxReqW oracleW 1 (teraboxHandler tbxReqW oracleW 0 []).2.1).1
          = (teraboxHandler tbxReqW oracleW 0 []).1) :=
  C2_cache_single_negotiation "http://share.example/s/1" "SURL" "TOK" "http://dl.example/f"
    reqW oracleW [] fileW rfl rfl rfl rfl rfl rfl rfl (by decide) rfl
    0 1 [] (by decide) (by decide)
    tbxReqW rfl rfl 0 1 [] (by decide) (by decide)

/-- C2 counterexample: with the `part_001` handler the share-page fetch is
observed twice across a first resolution and a repeated request answered from
its cache, refuting the claim that each upstream step is observed exactly
once; the first invocation did succeed (it is not an error response). -/
theorem C2_counterexample :
    ((part1GET reqW oracleW 0 []).2.2
        ++ (part1GET reqW oracleW 1 (part1GET reqW oracleW 0 []).2.1).2.2).count
      StepTag.page = 2
    ∧ isErrRoute (part1GET reqW oracleW 0 []).1 = false := by
  decide

/-- C4 (amended): no failed resolution ever writes a cache entry. For the
`route.ts` handler the cache after an error response is exactly the cache
before; for the Netlify handler every entry present after an error response
was already present unchanged before (the cache can only have shrunk, by
`getCache` lazily deleting an expired entry); and an empty upstream file
list in particular yields the 400 `File not found` error with the cache
unchanged. -/
theorem C4_no_negative_caching :
    (∀ req o cache0, isErrRoute (routeGET req o cache0).1 = true →
      (routeGET req o cache0).2.1 = cache0)
    ∧ (∀ req o now cache0 q e, isErrTbx (teraboxHandler req o now cache0).1 = true →
      ((teraboxHandler req o now cache0).2.1).find? (fun p => p.1 = q) = some e →
      cache0.find? (fun p => p.1 = q) = some e)
    ∧ (∀ u req o cache0, req.data = some u → cfGet cache0 u = none →
      o.jsToken.isSome = true → o.surl.isSome = true → o.file = none →
      (routeGET req o cache0).1 = .errorJson 400 "File not found"
        ∧ (routeGET req o cache0).2.1 = cache0) := by
  refine ⟨?_, ?_, ?_⟩
  · intro req o cache0 herr
    obtain ⟨rdata, rproxy, rdownload, rrange⟩ := req
    cases rdata with
    | none => rfl
    | some u =>
      obtain ⟨ojs, osurl, ofile, odl⟩ := o
      cases hco : cfGet cache0 u with
      | some cached => cases rproxy <;> cases rdownload <;> simp [routeGET, hco]
      | none =>
        cases ojs with
        | none => simp [routeGET, hco]
        | some tok =>
          cases osurl with
          | none => simp [routeGET, hco]
          | some surl =>
            cases ofile with
            | none => simp [routeGET, hco]
            | some f =>
              obtain ⟨fdl, fn, fs, ft⟩ := f
              cases fdl with
              | none => simp [routeGET, hco]
              | some d =>
                by_cases hdl0 : odl = ""
                · simp [routeGET, hco, hdl0]
                · exfalso
                  cases rproxy <;> cases rdownload <;>
                    simp [routeGET, hco, hdl0, isErrRoute] at herr
  · intro req o now cache0 q e herr hfind
    obtain ⟨rdata, rdownload⟩ := req
    cases rdata with
    | none => exact hfind
    | some u =>
      rcases hm : memGet now cache0 u with ⟨mval, mc1⟩
      have hmc : (memGet now cache0 u).2 = mc1 := by rw [hm]
      simp only [teraboxHandler, hm] at herr hfind
      cases mval with
      | some hit =>
        cases hdl : rdownload with
        | false => simp [hdl, isErrTbx] at herr
        | true =>
          simp only [hdl, if_true] at herr hfind
          rw [teraboxResolve_err_cache u ⟨some u, true⟩ o now mc1 herr] at hfind
          exact memGet_submap (by rw [hmc]; exact hfind)
      | none =>
        rw [teraboxResolve_err_cache u ⟨some u, rdownload⟩ o now mc1 herr] at hfind
        exact memGet_submap (by rw [hmc]; exact hfind)
  · intro u req o cache0 hdata hmiss hj hs hf
    obtain ⟨tok, hj⟩ := Option.isSome_iff_exists.mp hj
    obtain ⟨surl, hs⟩ := Option.isSome_iff_exists.mp hs
    refine ⟨?_, ?_⟩ <;> simp [routeGET, hdata, hmiss, hj, hs, hf]

/-- C4 witness: an empty file list on a cold cache yields the error response
and leaves the empty cache empty. -/
theorem C4_no_negative_caching_witness :
    (routeGET reqW oracleEmptyList []).1 = .errorJson 400 "File not found"
    ∧ (routeGET reqW oracleEmptyList []).2.1 = ([] : CFCache) :=
  C4_no_negative_caching.2.2 "http://share.example/s/1" reqW oracleEmptyList []
    rfl (by decide) (by decide) (by decide) rfl

/-- C4 counterexample: in `terabox.js`, a failed resolution that began with a
`getCache` probe of an expired entry leaves the cache different from the one
it started with (the expired entry was lazily deleted), refuting the literal
claim that the cache state after a failed invocation equals the state before
it. -/
theorem C4_counterexample :
    isErrTbx (teraboxHandler tbxReqW oracleEmptyList 10 tbxCacheStale).1 = true
    ∧ (teraboxHandler tbxReqW oracleEmptyList 10 tbxCacheStale).2.1 = []
    ∧ tbxCacheStale ≠ [] := by
  decide

/-- C6 (amended): the `route.ts` streaming proxy builds a fresh header object
holding at most the inbound Range header, so its upstream request never
carries a Cookie header and is identical whatever the resolution jar was; the
`functions/api.ts` proxy instead reuses the resolver's headers, so its
upstream request carries exactly the Cookie jar stored there. -/
theorem C6_proxy_cookie_isolation :
    (∀ range : Option String,
      (proxyUpstreamHeadersRoute range).all (fun p => p.1 ≠ "cookie") = true)
    ∧ (∀ resps resolve url hs range jar, headerGet hs "Cookie" = some jar →
      ∃ rest, (proxyDownloadApi resps resolve url hs range).2 = (url, jar) :: rest) := by
  constructor
  · intro range
    cases range with
    | none => rfl
    | some r => rfl
  · intro resps resolve url hs range jar hjar
    have hck : headerGet
        (match range with
          | some r => headerSet hs "Range" r
          | none => hs) "Cookie" = some jar := by
      cases range with
      | none => exact hjar
      | some r =>
        rw [headerGet_headerSet_ne hs "Range" "Cookie" r (by decide)]
        exact hjar
    simp only [proxyDownloadApi, fetchFollowWithCookies]
    rw [hck]
    simp only [Option.getD_some]
    exact fetchFwcGo_trace_head resps resolve 10 0 url jar (by omega)

/-- C6 witness: with a jar holding `sid=secret`, the api-variant proxy sends
that jar as the Cookie of its first upstream request. -/
theorem C6_proxy_cookie_isolation_witness :
    ∃ rest, (proxyDownloadApi respsOk idResolve "http://cdn.example/f"
        [("cookie", "sid=secret")] none).2 = ("http://cdn.example/f", "sid=secret") :: rest :=
  C6_proxy_cookie_isolation.2 respsOk idResolve "http://cdn.example/f"
    [("cookie", "sid=secret")] none "sid=secret" (by decide)

/-- C6 counterexample: the `functions/api.ts` proxy cited by the claim sends
the resolution jar upstream, and two resolutions differing only in their jar
produce different proxy requests. -/
theorem C6_counterexample :
    (proxyDownloadApi respsOk idResolve "http://cdn.example/f"
        [("cookie", "sid=secret")] none).2 = [("http://cdn.example/f", "sid=secret")]
    ∧ (proxyDownloadApi respsOk idResolve "http://cdn.example/f"
        [("cookie", "sid=other")] none).2 = [("http://cdn.example/f", "sid=other")]
    ∧ (proxyDownloadApi respsOk idResolve "http://cdn.example/f"
        [("cookie", "sid=secret")] none).2 ≠
      (proxyDownloadApi respsOk idResolve "http://cdn.example/f"
        [("cookie", "sid=other")] none).2 := by
  decide

/-- C10 (amended): when every other step succeeds but the selected entry's
size field does not parse to a finite number, the `route.ts` resolution
still returns the 200 JSON result with `size` equal to `Unknown`, and
`sizebytes` is `Number(file.size) || 0` — 0 when the parse is NaN, but the
truthy value Infinity (which `JSON.stringify` serializes as `null`, not 0)
when the parse is infinite. -/
theorem C10_nonfinite_size (u surl tok d : String) (req : Req) (o : RouteOracle)
    (cache0 : CFCache) (f : FileEntry)
    (hdata : req.data = some u) (hp : req.hasProxy = false) (hd : req.hasDownload = false)
    (hmiss : cfGet cache0 u = none) (hj : o.jsToken = some tok) (hs : o.surl = some surl)
    (hf : o.file = some f) (hdl : f.dlink = some d) (hdir : o.directLink ≠ "")
    (hsize : jsIsFinite f.sizeNum = false) :
    (routeGET req o cache0).1 =
      .json 200 ⟨f.server_filename.getD "", d, o.directLink, f.thumb.getD "",
        "Unknown", jsOrZero f.sizeNum⟩
    ∧ (f.sizeNum = JsNum.nan → jsOrZero f.sizeNum = JsNum.fin 0)
    ∧ (f.sizeNum = JsNum.inf →
        jsOrZero f.sizeNum = JsNum.inf ∧ jsonNumRender (jsOrZero f.sizeNum) = "null") := by
  refine ⟨?_, ?_, ?_⟩
  · have hunk : getFormattedSizeRoute f.sizeNum = "Unknown" := by
      cases hn : f.sizeNum with
      | nan => rfl
      | inf => rfl
      | negInf => rfl
      | fin b => rw [hn] at hsize; simp [jsIsFinite] at hsize
    simp [routeGET, hdata, hmiss, hj, hs, hf, hdl, hp, hd, hdir, hunk]
  · intro h; rw [h]; rfl
  · intro h; rw [h]; exact ⟨rfl, rfl⟩

/-- C10 witness: a concrete resolution with a NaN size returns 200 with size
`Unknown` and sizebytes 0, and one with an Infinity size returns 200 with
size `Unknown` and sizebytes Infinity. -/
theorem C10_nonfinite_size_witness :
    ((routeGET reqW oracleNaN []).1 =
        .json 200 ⟨fileNaN.server_filename.getD "", "http://dl.example/f",
          oracleNaN.directLink, fileNaN.thumb.getD "", "Unknown", jsOrZero fileNaN.sizeNum⟩)
    ∧ jsOrZero fileNaN.sizeNum = JsNum.fin 0
    ∧ ((routeGET reqW oracleInf []).1 =
        .json 200 ⟨fileInf.server_filename.getD "", "http://dl.example/f",
          oracleInf.directLink, fileInf.thumb.getD "", "Unknown", jsOrZero fileInf.sizeNum⟩) :=
  ⟨(C10_nonfinite_size "http://share.example/s/1" "SURL" "TOK" "http://dl.example/f"
      reqW oracleNaN [] fileNaN rfl rfl rfl rfl rfl rfl rfl rfl (by decide) rfl).1,
   (C10_nonfinite_size "http://share.example/s/1" "SURL" "TOK" "http://dl.example/f"
      reqW oracleNaN [] fileNaN rfl rfl rfl rfl rfl rfl rfl rfl (by decide) rfl).2.1 rfl,
   (C10_nonfinite_size "http://share.example/s/1" "SURL" "TOK" "http://dl.example/f"
      reqW oracleInf [] fileInf rfl rfl rfl rfl rfl rfl rfl rfl (by decide) rfl).1⟩

/-- C10 counterexample: for a size field parsing to Infinity (for example the
text `1e999`), the resolution succeeds with size `Unknown` but `sizebytes` is
Infinity — serialized as `null` by `JSON.stringify` — and not 0, refuting
the claim as stated. -/
theorem C10_counterexample :
    (routeGET reqW oracleInf []).1 =
      .json 200 ⟨"file.bin", "http://dl.example/f", "http://cdn.example/f", "",
        "Unknown", JsNum.inf⟩
    ∧ JsNum.inf ≠ JsNum.fin 0
    ∧ jsonNumRender JsNum.inf = "null" := by
  decide

/-- C1: in both redirecting fetch clients, a chain whose first terminal
response (non-3xx, or 3xx with a falsy Location) arrives within the hop
budget terminates the loop and returns exactly that response, while a chain
that is still redirecting after `maxHops` fetches fails (the thrown
`Too many redirects` error, modelled as `none`). -/
theorem C1_redirect_hop_bound (resps : Nat → Resp) (resolve : String → String → String)
    (url c0 : String) (maxHops : Nat) :
    (∀ n, n < maxHops → (∀ j, j < n → isRedirectHop (resps j) = true) →
        isRedirectHop (resps n) = false →
        ∃ c t, fetchFollowWithCookies resps resolve url c0 maxHops = (some ⟨resps n, c⟩, t))
    ∧ ((∀ j, j < maxHops → isRedirectHop (resps j) = true) →
        (fetchFollowWithCookies resps resolve url c0 maxHops).1 = none)
    ∧ (∀ n, n < maxHops → (∀ j, j < n → isRedirectHop (resps j) = true) →
        isRedirectHop (resps n) = false →
        ∃ t, fetchFollowCookies resps resolve url c0 maxHops = (some (resps n), t))
    ∧ ((∀ j, j < maxHops → isRedirectHop (resps j) = true) →
        (fetchFollowCookies resps resolve url c0 maxHops).1 = none) := by
  refine ⟨?_, ?_, ?_, ?_⟩
  · intro n hn hall hterm
    have h := fetchFwcGo_terminal resps resolve n maxHops 0 url c0 hn
      (fun j hj => by simpa using hall j hj) (by simpa using hterm)
    simpa [fetchFollowWithCookies] using h
  · intro hall
    exact fetchFwcGo_exhaust resps resolve maxHops 0 url c0
      (fun j hj => by simpa using hall j hj)
  · intro n hn hall hterm
    have h := fetchFcGo_terminal resps resolve n maxHops 0 url c0 hn
      (fun j hj => by simpa using hall j hj) (by simpa using hterm)
    simpa [fetchFollowCookies] using h
  · intro hall
    exact fetchFcGo_exhaust resps resolve maxHops 0 url c0
      (fun j hj => by simpa using hall j hj)

/-- C1 witness: a one-redirect chain terminates at hop 1 in both clients, and
an always-redirecting chain exhausts the default budget of 10 in both. -/
theorem C1_redirect_hop_bound_witness :
    (∃ c t, fetchFollowWithCookies respsOneRedirect idResolve "http://a.example/" "" 10 =
        (some ⟨respsOneRedirect 1, c⟩, t))
    ∧ (fetchFollowWithCookies respsAllRedirect idResolve "http://a.example/" "" 10).1 = none
    ∧ (∃ t, fetchFollowCookies respsOneRedirect idResolve "http://a.example/" "" 10 =
        (some (respsOneRedirect 1), t))
    ∧ (fetchFollowCookies respsAllRedirect idResolve "http://a.example/" "" 10).1 = none :=
  ⟨(C1_redirect_hop_bound respsOneRedirect idResolve "http://a.example/" "" 10).1 1
      (by decide) (by decide) (by decide),
   (C1_redirect_hop_bound respsAllRedirect idResolve "http://a.example/" "" 10).2.1
      (by decide),
   (C1_redirect_hop_bound respsOneRedirect idResolve "http://a.example/" "" 10).2.2.1 1
      (by decide) (by decide) (by decide),
   (C1_redirect_hop_bound respsAllRedirect idResolve "http://a.example/" "" 10).2.2.2
      (by decide)⟩

/-- C8 (amended): the redirecting fetch client applies no scheme filter at
all: after a redirect with a truthy Location `l`, the next request goes to
`l` verbatim whenever `l` starts with the literal text `http` (so any scheme
with that prefix is followed), and otherwise to `l` resolved against the
current URL, whatever scheme that resolution produces. -/
theorem C8_follow_url_shape (resps : Nat → Resp) (resolve : String → String → String)
    (url c0 : String) (fuel : Nat) (l : String) (hf : 2 ≤ fuel)
    (h3 : 300 ≤ (resps 0).status ∧ (resps 0).status < 400)
    (hloc : (resps 0).location = some l) (hl : l ≠ "") :
    ∃ rest,
      (fetchFollowWithCookies resps resolve url c0 fuel).2 =
        (url, c0) :: (if jsStartsWith l "http" then l else resolve l url,
          mergeWhole c0 (resps 0).setCookie) :: rest := by
  obtain ⟨f2, rfl⟩ : ∃ f2, fuel = f2 + 2 := ⟨fuel - 2, by omega⟩
  unfold fetchFollowWithCookies fetchFwcGo
  simp only
  rw [if_pos h3]
  simp only [hloc]
  rw [if_neg hl]
  obtain ⟨rest, hrest⟩ := fetchFwcGo_trace_head resps resolve (f2 + 1) 1
    (if jsStartsWith l "http" then l else resolve l url)
    (mergeWhole c0 (resps 0).setCookie) (by omega)
  rw [hrest]
  exact ⟨rest, rfl⟩

/-- C8 witness: a redirect whose Location starts with `http` is followed to
that Location verbatim. -/
theorem C8_follow_url_shape_witness :
    ∃ rest,
      (fetchFollowWithCookies respsOneRedirect idResolve "http://a.example/" "" 10).2 =
        ("http://a.example/", "") ::
          (if jsStartsWith "http://b.example/" "http" then "http://b.example/"
            else idResolve "http://b.example/" "http://a.example/",
            mergeWhole "" (respsOneRedirect 0).setCookie) :: rest :=
  C8_follow_url_shape respsOneRedirect idResolve "http://a.example/" "" 10 "http://b.example/"
    (by decide) (by decide) (by decide) (by decide)

/-- C8 counterexample: a Location of `httpx://evil.example/` passes the
`startsWith("http")` test, so the client issues its follow-up request to a
URL whose scheme is `httpx`, neither `http` nor `https`. -/
theorem C8_counterexample :
    (fetchFollowWithCookies respsBadScheme idResolve "http://a.example/" "" 10).2 =
      [("http://a.example/", ""), ("httpx://evil.example/", "")]
    ∧ specUrlScheme "httpx://evil.example/" ≠ "http"
    ∧ specUrlScheme "httpx://evil.example/" ≠ "https" := by
  decide

/-- C9: within one call of either redirecting fetch client the cookie store
grows monotonically: the initial Cookie value is a prefix of the Cookie sent
on every hop and of the returned cookie, and the successive Cookie values
form a prefix chain, so nothing appended earlier is ever removed; the raw
pair merge of the `route.ts` and `part_000` variant also only extends its
store. -/
theorem C9_cookie_monotone (resps : Nat → Resp) (resolve : String → String → String)
    (url c0 : String) (maxHops : Nat) :
    (∀ p ∈ (fetchFollowWithCookies resps resolve url c0 maxHops).2,
        isPrefixStr c0 p.2 = true)
    ∧ (∀ fr, (fetchFollowWithCookies resps resolve url c0 maxHops).1 = some fr →
        isPrefixStr c0 fr.cookie = true)
    ∧ List.Chain' (fun a b => isPrefixStr a b = true)
        ((fetchFollowWithCookies resps resolve url c0 maxHops).2.map Prod.snd
          ++ (match (fetchFollowWithCookies resps resolve url c0 maxHops).1 with
              | some fr => [fr.cookie]
              | none => []))
    ∧ (∀ p ∈ (fetchFollowCookies resps resolve url c0 maxHops).2,
        isPrefixStr c0 p.2 = true)
    ∧ List.Chain' (fun a b => isPrefixStr a b = true)
        ((fetchFollowCookies resps resolve url c0 maxHops).2.map Prod.snd)
    ∧ (∀ store sc, isPrefixStr store (mergePairRaw store sc) = true) := by
  obtain ⟨h1, h2, h3⟩ := fetchFwcGo_monotone resps resolve maxHops 0 url c0
  obtain ⟨h4, h5⟩ := fetchFcGo_monotone resps resolve maxHops 0 url c0
  exact ⟨h1, h2, h3, h4, h5, mergePairRaw_extends⟩

/-- C9 witness: on a concrete one-redirect chain seeded with `seed=1`, the
first sent Cookie and the returned cookie both extend the seed. -/
theorem C9_cookie_monotone_witness :
    isPrefixStr "seed=1" ("http://a.example/", "seed=1").2 = true
    ∧ isPrefixStr "seed=1"
        (FetchResult.mk ⟨200, none, none⟩ "seed=1; sid=1; Path=/; HttpOnly").cookie = true :=
  ⟨(C9_cookie_monotone respsOneRedirect idResolve "http://a.example/" "seed=1" 10).1
      ("http://a.example/", "seed=1") (by decide),
   (C9_cookie_monotone respsOneRedirect idResolve "http://a.example/" "seed=1" 10).2.1
      ⟨⟨200, none, none⟩, "seed=1; sid=1; Path=/; HttpOnly"⟩ (by decide)⟩

/-- C7: the `functions/api.ts` size formatter renders `"<n> bytes"` below
1024, KB with two decimals from 1024 up to 1024 squared, and MB with two
decimals from 1024 squared on; the `route.ts` axios variant (also cited by
the claim) renders the same KB and MB branches but applies two decimals to
the bytes branch too, refuting the claim as stated there. -/
theorem C7_size_formatting (n : Nat) :
    getFormattedSize n =
      (if n < 1024 then natToStr n ++ " bytes"
       else if n < 1024 * 1024 then toFixed2 n 1024 ++ " KB"
       else toFixed2 n (1024 * 1024) ++ " MB")
    ∧ getFormattedSizeAxios n =
      (if n < 1024 then toFixed2 n 1 ++ " bytes"
       else if n < 1024 * 1024 then toFixed2 n 1024 ++ " KB"
       else toFixed2 n (1024 * 1024) ++ " MB") := by
  unfold getFormattedSize getFormattedSizeAxios
  constructor <;> (split_ifs <;> first | rfl | omega)

/-- C7 counterexample: the `route.ts` lines 233-248 formatter cited by the
claim renders 512 bytes as `"512.00 bytes"`, not `"512 bytes"`. -/
theorem C7_counterexample :
    getFormattedSizeAxios 512 = "512.00 bytes" ∧ getFormattedSizeAxios 512 ≠ "512 bytes" := by
  decide

/-- C5 (amended): the filtering `normalizeCookie` variant of
`src/functions/api.ts` lines 264-311 never stores an attribute token
(case-insensitively) as a cookie name in the map it builds and serializes. -/
theorem C5_attr_tokens_filtered (cookie k v : String)
    (hk : (k, v) ∈ normalizeCookieMap cookie) :
    ATTR_NAMES.contains (jsToLower k) = false := by
  unfold normalizeCookieMap at hk
  exact foldl_cookieStep_attr_free _ [] (by simp) (k, v) hk

/-- C5 witness: the filtered map of a concrete jar string keeps `sid` and
`sid` is not an attribute token. -/
theorem C5_attr_tokens_filtered_witness :
    ATTR_NAMES.contains (jsToLower "sid") = false :=
  C5_attr_tokens_filtered "sid=abc; Path=/; HttpOnly" "sid" "abc" (by decide)

/-- C5 counterexample: the simple `normalizeCookie` of `src/functions/api.ts`
lines 22-29 (cited by the claim) emits the attribute tokens `Path` and
`Secure` as cookie names. -/
theorem C5_counterexample :
    normalizeCookie "sid=abc; Path=/; Secure" = "Path=/; Secure; sid=abc"
    ∧ ((specCookieNames (normalizeCookie "sid=abc; Path=/; Secure")).map jsToLower).contains
        "path" = true
    ∧ ((specCookieNames (normalizeCookie "sid=abc; Path=/; Secure")).map jsToLower).contains
        "secure" = true := by
  decide

/-- C3 (amended): every header name emitted by the `functions/api.ts` proxy
starts with `content` (the hyphen is not required) or is `accept-ranges`, or
is one of the two CORS names the proxy sets itself; the `app/api/route.ts`
proxy instead copies every upstream header name into its response. -/
theorem C3_proxy_header_filtering :
    (∀ upstream q, q ∈ hdrKeys (proxyOutHeadersApi upstream) →
      jsStartsWith q "content" = true ∨ q = "accept-ranges"
        ∨ q = "access-control-allow-origin" ∨ q = "access-control-expose-headers")
    ∧ (∀ upstream k v, (k, v) ∈ upstream →
      jsToLower k ∈ hdrKeys (proxyOutHeadersRoute upstream)) := by
  constructor
  · intro upstream q hq
    unfold proxyOutHeadersApi at hq
    rcases hdrKeys_headerSet_cases hq with h | h
    · rw [h]; decide
    · rcases hdrKeys_headerSet_cases h with h2 | h2
      · rw [h2]; decide
      · rcases apiFoldKeysOk upstream [] (by simp [hdrKeys]) q h2 with h3 | h3
        · left; exact h3
        · right; left; exact h3
  · intro upstream k v hk
    unfold proxyOutHeadersRoute
    exact hdrKeys_headerSet_mono (hdrKeys_headerSet_mono (hdrKeys_headerSet_mono
      (hdrKeys_foldl_set_mem upstream [] k v hk)))

/-- C3 witness: a `content-type` header satisfies the api filter shape, and
the route proxy keeps a tracking header. -/
theorem C3_proxy_header_filtering_witness :
    (jsStartsWith "content-type" "content" = true ∨ "content-type" = "accept-ranges"
      ∨ "content-type" = "access-control-allow-origin"
      ∨ "content-type" = "access-control-expose-headers")
    ∧ jsToLower "X-Tracking-Id" ∈ hdrKeys (proxyOutHeadersRoute [("X-Tracking-Id", "1")]) :=
  ⟨C3_proxy_header_filtering.1 [("Content-Type", "text/plain")] "content-type" (by decide),
   C3_proxy_header_filtering.2 [("X-Tracking-Id", "1")] "X-Tracking-Id" "1" (by decide)⟩

/-- C3 counterexample: the `app/api/route.ts` proxy cited by the claim
forwards an upstream header that neither starts with `content-` nor is
`accept-ranges`. -/
theorem C3_counterexample :
    "x-tracking-id" ∈ hdrKeys (proxyOutHeadersRoute [("x-tracking-id", "1")])
    ∧ jsStartsWith "x-tracking-id" "content-" = false
    ∧ "x-tracking-id" ≠ "accept-ranges" := by
  decide

end TbSpec
